import Mathlib

set_option maxHeartbeats 1000000

/-
Verification of the employee grouping engine (src/group_employees.py):
a shallow embedding of the preprocessing pipeline, the elbow-based
cluster-count selection, the group profiler and the temporal merger,
together with theorems settling the specification's claims about them.

Conventions of the embedding:
- pandas cell values are exact rationals (ℚ); results of the standard
  scaler, which involve a square root, live in ℝ;
- Python exceptions are an explicit error type returned through `Except`;
- wall-clock timestamps in result dictionaries are omitted (real time);
- the iterative clustering primitives (KMeans / DBSCAN fitting) are a
  pluggable parameter, as the spec's non-goals prescribe: the logic
  around them (selection, profiling, merging) is embedded exactly.
-/

/-- Errors surfaced by the embedded operations.  `alignmentError` is a name
from the specification's error taxonomy; the source never defines or raises
it, and it is listed here only so that statements about it can be written. -/
inductive PyError
  | attributeError
  | keyError
  | valueError
  | alignmentError
  deriving DecidableEq, Repr

/-- Python's built-in `round` on a float (also reached through
`round(numpy.float64)`): round half to even. -/
def roundHalfEven (q : ℚ) : ℤ :=
  if q - ⌊q⌋ < 1/2 then ⌊q⌋
  else if 1/2 < q - ⌊q⌋ then ⌊q⌋ + 1
  else if ⌊q⌋ % 2 = 0 then ⌊q⌋ else ⌊q⌋ + 1

/-- The label-blending loop of `_merge_groupings`:
`zip(previous['labels'], current['labels'])` truncates to the shorter
input, and each blended value goes through Python's `round`. -/
def mergeLabels (previous current : List ℤ) (weight_previous weight_current : ℚ) : List ℤ :=
  (previous.zip current).map
    (fun p => roundHalfEven ((p.1 : ℚ) * weight_previous + (p.2 : ℚ) * weight_current))

/-- Embedding of `np.diff`: successive differences. -/
def npDiff (xs : List ℚ) : List ℚ := (xs.tail.zip xs).map (fun p => p.1 - p.2)

def listMin : List ℚ → ℚ
  | [] => 0
  | [x] => x
  | x :: y :: t => min x (listMin (y :: t))

/-- Embedding of `np.argmin`: index of the first occurrence of the minimum
(0 on the empty list, where numpy instead raises). -/
def npArgmin : List ℚ → ℕ
  | [] => 0
  | [_] => 0
  | x :: y :: t => if x ≤ listMin (y :: t) then 0 else npArgmin (y :: t) + 1

/-- The elbow rule of `_determine_optimal_clusters`, as a function of the
within-cluster inertia sequence produced by the pluggable k-means
primitive for k = 2, 3, ...: `np.argmin(np.diff(inertias)) + 2`. -/
def determine_optimal_clusters (inertias : List ℚ) : ℕ :=
  npArgmin (npDiff inertias) + 2

/-- Sorted insertion without duplicates (helper for `np.unique` and the
`LabelEncoder` class table). -/
def insertUnique [LinearOrder α] (x : α) : List α → List α
  | [] => [x]
  | y :: t => if x < y then x :: y :: t else if x = y then y :: t else y :: insertUnique x t

/-- Embedding of `np.unique` (also `LabelEncoder.fit`'s class extraction): the distinct
values in ascending order. -/
def np_unique [LinearOrder α] (xs : List α) : List α := xs.foldr insertUnique []

/-! ## Data model: pandas frames -/

/-- One pandas column, by dtype.  `intCol` is `int64` (cannot hold NaN),
`floatCol` is `float64` with possible NaN, `objCol` holds strings with
possible NaN, `dateCol` is `datetime64` (days since an epoch) with
possible NaT, `boolCol` is `bool` (cannot hold NaN). -/
inductive ColData
  | intCol (vs : List ℚ)
  | floatCol (vs : List (Option ℚ))
  | objCol (vs : List (Option String))
  | dateCol (vs : List (Option ℤ))
  | boolCol (vs : List Bool)
  deriving DecidableEq, Repr

/-- A DataFrame: named columns in order. -/
abbrev Frame := List (String × ColData)

/-- An output column of `preprocess_data`: either a raw (dtype-preserving)
column or one standardized by the scaler, whose values involve a square
root and therefore live in ℝ. -/
inductive OutCol
  | raw (c : ColData)
  | scaled (vs : List ℝ)

abbrev OutFrame := List (String × OutCol)

structure GroupProfile where
  size : ℕ
  avg_values : List (String × ℝ)
  std_values : List (String × ℝ)
  dominant_features : List (String × ℝ)

/-- Result dictionary of `identify_groups` / `_merge_groupings` (the
wall-clock `timestamp` entry is omitted from the embedding). -/
structure Grouping where
  labels : List ℤ
  group_profiles : List (ℤ × GroupProfile)
  method_used : String

/-- The mutable session state of `EmployeeGroupingSystem`: the
`self.encoders` dict (column name to fitted `LabelEncoder` classes), the
`self.scalers` dict (which only ever holds the `'numeric_scaler'` key,
recorded with its fitted per-column mean and scale), and the
`previous_groups` / `current_data` attributes, absent (`none`) until
assigned.  `current_data` is read by `_merge_groupings` but no operation
of the system ever assigns it. -/
structure SState where
  encoders : List (String × List String)
  scaler : Option (List (ℚ × ℝ))
  previous_groups : Option Grouping
  current_data : Option OutFrame

/-- State at engine construction: empty encoder/scaler dicts, and neither
`previous_groups` nor `current_data` exists. -/
def initState : SState :=
  { encoders := [], scaler := none, previous_groups := none, current_data := none }

/-! ## Group profiler -/

noncomputable def meanR (xs : List ℝ) : ℝ := xs.sum / xs.length

/-- pandas `Series.std`: sample standard deviation (ddof = 1). -/
noncomputable def sampleStd (xs : List ℝ) : ℝ :=
  Real.sqrt ((xs.map (fun x => (x - meanR xs) ^ 2)).sum / ((xs.length : ℝ) - 1))

/-- The deviation score computed by `_identify_dominant_features`: the
source subtracts the group's own column mean from itself and divides by
the group's own sample standard deviation. -/
noncomputable def domScore (xs : List ℝ) : ℝ :=
  |(meanR xs - meanR xs) / sampleStd xs|

noncomputable def insertDesc (x : String × ℝ) : List (String × ℝ) → List (String × ℝ)
  | [] => [x]
  | y :: t => if x.2 < y.2 then y :: insertDesc x t else x :: y :: t

/-- Python's stable `sorted(..., key=lambda x: x[1], reverse=True)`. -/
noncomputable def sortDesc (l : List (String × ℝ)) : List (String × ℝ) := l.foldr insertDesc []

/-- Embedding of `_identify_dominant_features`: score every column of the group's
sub-frame, sort descending, keep the top 3. -/
noncomputable def identify_dominant_features (cols : List (String × List ℝ)) :
    List (String × ℝ) :=
  (sortDesc (cols.map (fun c => (c.1, domScore c.2)))).take 3

/-- The numeric view of a frame consumed by the profiler: column names
plus row-major values. -/
structure ProfFrame where
  names : List String
  rows : List (List ℝ)

def colOf (rows : List (List ℝ)) (j : ℕ) : List ℝ := rows.map (fun r => r.getD j 0)

def colsOf (names : List String) (rows : List (List ℝ)) : List (String × List ℝ) :=
  (List.range names.length).map (fun j => (names.getD j "", colOf rows j))

noncomputable def mkProfile (names : List String) (grows : List (List ℝ)) : GroupProfile :=
  { size := grows.length
  , avg_values := (colsOf names grows).map (fun c => (c.1, meanR c.2))
  , std_values := (colsOf names grows).map (fun c => (c.1, sampleStd c.2))
  , dominant_features := identify_dominant_features (colsOf names grows) }

/-- Row selection `data[labels == label]`. -/
def selectRows (rows : List (List ℝ)) (labels : List ℤ) (l : ℤ) : List (List ℝ) :=
  ((labels.zip rows).filter (fun p => p.1 = l)).map (fun p => p.2)

/-- Embedding of `_analyze_group_profiles`: one profile per unique label, skipping the
DBSCAN noise label −1 (dict keys `group_{label}` are modeled by the label
itself). -/
noncomputable def analyze_group_profiles (data : ProfFrame) (labels : List ℤ) :
    List (ℤ × GroupProfile) :=
  (np_unique labels).filterMap
    (fun l => if l = -1 then none
      else some (l, mkProfile data.names (selectRows data.rows labels l)))

/-! ## Preprocessor -/

def insertAsc (x : ℚ) : List ℚ → List ℚ
  | [] => [x]
  | y :: t => if x ≤ y then x :: y :: t else y :: insertAsc x t

/-- pandas `Series.median` over the non-missing values (`none` when there
are none, i.e. the median is NaN). -/
def medianQ (xs : List ℚ) : Option ℚ :=
  let s := xs.foldr insertAsc []
  if xs.length = 0 then none
  else if xs.length % 2 = 1 then some (s.getD (xs.length / 2) 0)
  else some ((s.getD (xs.length / 2 - 1) 0 + s.getD (xs.length / 2) 0) / 2)

/-- pandas `mode()[0]` over the non-missing values: the smallest value of
maximal multiplicity (`Series.mode` sorts ascending and `[0]` takes the
head); `none` when the mode Series is empty, where `[0]` raises KeyError. -/
def modeFirst [LinearOrder α] (vs : List α) : Option α :=
  match np_unique vs with
  | [] => none
  | c :: cs => some ((c :: cs).foldl (fun b x => if vs.count x > vs.count b then x else b) c)

/-- Missing-value handling for one column: numeric dtypes get
`fillna(median)` (a NaN median leaves the column unchanged), all other
dtypes get `fillna(mode()[0])`, which raises KeyError when the mode is
empty. -/
def imputeCol : ColData → Except PyError ColData
  | .intCol vs => .ok (.intCol vs)
  | .floatCol vs =>
      match medianQ (vs.filterMap id) with
      | none => .ok (.floatCol vs)
      | some m => .ok (.floatCol (vs.map (fun v => some (v.getD m))))
  | .objCol vs =>
      match modeFirst (vs.filterMap id) with
      | none => .error .keyError
      | some m => .ok (.objCol (vs.map (fun v => some (v.getD m))))
  | .dateCol vs =>
      match modeFirst (vs.filterMap id) with
      | none => .error .keyError
      | some m => .ok (.dateCol (vs.map (fun v => some (v.getD m))))
  | .boolCol vs =>
      match modeFirst vs with
      | none => .error .keyError
      | some _ => .ok (.boolCol vs)

/-- The missing-value loop over all columns, surfacing the first error. -/
def imputeFrame : Frame → Except PyError Frame
  | [] => .ok []
  | c :: rest =>
      match imputeCol c.2 with
      | .error e => .error e
      | .ok c2 =>
          match imputeFrame rest with
          | .error e => .error e
          | .ok rest2 => .ok ((c.1, c2) :: rest2)

def getCol (f : Frame) (n : String) : Option ColData :=
  (f.find? (fun c => c.1 = n)).map (fun c => c.2)

def setCol (f : Frame) (n : String) (c : ColData) : Frame :=
  if f.any (fun e => e.1 = n) then f.map (fun e => if e.1 = n then (n, c) else e)
  else f ++ [(n, c)]

/-- Feature engineering: when a `hire_date` column exists, append
`tenure = (now - hire_date).dt.days / 365`.  Modeled for datetime
payloads (as in the repository's data); `pd.to_datetime` of other
payloads is outside the modeled flows. -/
def tenureStep (now : ℤ) (f : Frame) : Except PyError Frame :=
  match getCol f "hire_date" with
  | none => .ok f
  | some (.dateCol vs) =>
      .ok (setCol f "tenure"
        (.floatCol (vs.map (fun d => d.map (fun x => ((now - x : ℤ) : ℚ) / 365)))))
  | some _ => .error .valueError

def setEnc (encs : List (String × List String)) (n : String) (cs : List String) :
    List (String × List String) :=
  encs.map (fun e => if e.1 = n then (n, cs) else e)

/-- Categorical encoding over the object-dtype columns, in column order.
The `if col not in self.encoders` guard only creates the dict entry; the
unconditional `fit_transform` then re-fits the encoder on every call, so
the stored classes always come from the current call's values. -/
def encodeStep : Frame → List (String × List String) → Frame × List (String × List String)
  | [], encs => ([], encs)
  | (n, ColData.objCol vs) :: rest, encs =>
      let encs1 := if encs.any (fun e => e.1 = n) then encs else encs ++ [(n, [])]
      let classes := np_unique (vs.filterMap id)
      let encs2 := setEnc encs1 n classes
      let r := encodeStep rest encs2
      ((n, ColData.intCol (vs.map (fun v => (classes.indexOf (v.getD "") : ℚ)))) :: r.1, r.2)
  | c :: rest, encs =>
      let r := encodeStep rest encs
      (c :: r.1, r.2)

def isNumeric : ColData → Bool
  | .intCol _ => true
  | .floatCol _ => true
  | _ => false

def numHasMissing : ColData → Bool
  | .floatCol vs => vs.any (fun v => v.isNone)
  | _ => false

def numVals : ColData → List ℚ
  | .intCol vs => vs
  | .floatCol vs => vs.filterMap id
  | _ => []

def meanQ (xs : List ℚ) : ℚ := xs.sum / xs.length

/-- Population variance used by `StandardScaler` (ddof = 0). -/
def popVar (xs : List ℚ) : ℚ := ((xs.map (fun x => (x - meanQ xs) ^ 2)).sum) / xs.length

/-- Embedding of `StandardScaler.scale_`: square root of the variance, with zeros
replaced by 1. -/
noncomputable def scaleOf (xs : List ℚ) : ℝ :=
  if popVar xs = 0 then 1 else Real.sqrt ((popVar xs : ℚ) : ℝ)

noncomputable def transformCol (xs : List ℚ) : List ℝ :=
  xs.map (fun x => ((x - meanQ xs : ℚ) : ℝ) / scaleOf xs)

/-- The numeric-scaling block.  In the source the whole block — creating
the scaler, fitting it AND applying the transform — sits inside
`if 'numeric_scaler' not in self.scalers`, so once a scaler is stored
later calls neither refit nor transform anything.  The scaler object is
stored before `fit_transform` runs; `fit_transform` raises ValueError
when given no numeric feature column, a NaN value, or no samples. -/
noncomputable def scaleStep (st : SState) (f : Frame) : SState × Except PyError OutFrame :=
  match st.scaler with
  | some _ => (st, .ok (f.map (fun c => (c.1, OutCol.raw c.2))))
  | none =>
      let st1 : SState := { st with scaler := some [] }
      let numeric := f.filter (fun c => isNumeric c.2)
      if numeric.isEmpty then (st1, .error .valueError)
      else if numeric.any (fun c => numHasMissing c.2) then (st1, .error .valueError)
      else if numeric.any (fun c => (numVals c.2).isEmpty) then (st1, .error .valueError)
      else
        let params := numeric.map (fun c => (meanQ (numVals c.2), scaleOf (numVals c.2)))
        let st2 : SState := { st1 with scaler := some params }
        (st2, .ok (f.map (fun c =>
          if isNumeric c.2 then (c.1, OutCol.scaled (transformCol (numVals c.2)))
          else (c.1, OutCol.raw c.2))))

/-- Embedding of `preprocess_data`: copy, impute missing values, derive tenure, encode
categoricals, scale numerics.  All mutation targets the copy (see the
heap-level rendering below); the session state receives the encoder and
scaler updates. -/
noncomputable def preprocess_data (st : SState) (now : ℤ) (data : Frame) :
    SState × Except PyError OutFrame :=
  match imputeFrame data with
  | .error e => (st, .error e)
  | .ok f1 =>
      match tenureStep now f1 with
      | .error e => (st, .error e)
      | .ok f2 =>
          let r := encodeStep f2 st.encoders
          scaleStep { st with encoders := r.2 } r.1

/-! ## Clustering driver, temporal merger, session operations -/

def colLenOut : OutCol → ℕ
  | .raw (.intCol vs) => vs.length
  | .raw (.floatCol vs) => vs.length
  | .raw (.objCol vs) => vs.length
  | .raw (.dateCol vs) => vs.length
  | .raw (.boolCol vs) => vs.length
  | .scaled vs => vs.length

/-- Embedding of `len(df)`: the row count (read off the first column). -/
def nrowsOut (f : OutFrame) : ℕ := ((f.head?).map (fun c => colLenOut c.2)).getD 0

/-- Numeric view of one output column for the clustering/profiling
stages.  After preprocessing, only numeric, bool and datetime payloads
remain in the modeled flows (bools coerce to 0/1, datetimes to their day
numbers); a leftover NaN or string would make the numeric libraries
raise, which is outside the flows exercised here. -/
noncomputable def outColReals : OutCol → List ℝ
  | .scaled vs => vs
  | .raw (.intCol vs) => vs.map (fun x => (x : ℝ))
  | .raw (.floatCol vs) => vs.map (fun v => ((v.getD 0 : ℚ) : ℝ))
  | .raw (.objCol vs) => vs.map (fun _ => 0)
  | .raw (.dateCol vs) => vs.map (fun v => ((v.getD 0 : ℤ) : ℝ))
  | .raw (.boolCol vs) => vs.map (fun b => if b then 1 else 0)

noncomputable def toProf (f : OutFrame) : ProfFrame :=
  { names := f.map (fun c => c.1)
  , rows := (List.range (nrowsOut f)).map
      (fun i => f.map (fun c => (outColReals c.2).getD i 0)) }

/-- Embedding of `identify_groups` with `method='auto'`.  Both the k-means branch
(elbow-tuned, see `determine_optimal_clusters`) and the DBSCAN branch
reduce to the pluggable clustering primitive `fit`, whose label vector is
all the surrounding logic consumes; the auto dispatch keeps the source's
1000-row threshold.  The call mutates no session state. -/
noncomputable def identify_groups (fit : OutFrame → List ℤ) (data : OutFrame) : Grouping :=
  { labels := fit data
  , group_profiles := analyze_group_profiles (toProf data) (fit data)
  , method_used := if nrowsOut data > 1000 then "kmeans" else "dbscan" }

/-- Embedding of `_merge_groupings`: blend the two label vectors, then build the
result dict, whose `group_profiles` entry re-profiles
`self.current_data` — an attribute no operation ever assigns, so the
lookup raises AttributeError whenever it is absent. -/
noncomputable def merge_groupings (st : SState) (previous current : Grouping)
    (weight_previous weight_current : ℚ) : Except PyError Grouping :=
  let merged := mergeLabels previous.labels current.labels weight_previous weight_current
  match st.current_data with
  | none => .error .attributeError
  | some d =>
      .ok { labels := merged
          , group_profiles := analyze_group_profiles (toProf d) merged
          , method_used := "merged" }

/-- Embedding of `update_groups`: preprocess, then either merge with the previous
grouping (weights 0.3 / 0.7) or take the fresh grouping; on success the
result becomes the new `previous_groups`.  When the merge raises, the
assignment to `previous_groups` is not reached. -/
noncomputable def update_groups (fit : OutFrame → List ℤ) (st : SState) (now : ℤ)
    (new_data : Frame) : SState × Except PyError Grouping :=
  match preprocess_data st now new_data with
  | (st1, .error e) => (st1, .error e)
  | (st1, .ok processed) =>
      match st1.previous_groups with
      | some prev =>
          let current := identify_groups fit processed
          match merge_groupings st1 prev current (3/10) (7/10) with
          | .error e => (st1, .error e)
          | .ok updated => ({ st1 with previous_groups := some updated }, .ok updated)
      | none =>
          let updated := identify_groups fit processed
          ({ st1 with previous_groups := some updated }, .ok updated)

/-! ## Heap-level rendering of the preprocessor

`preprocess_data` starts with `processed_data = data.copy()` and every
in-place statement (`fillna(inplace=True)`, column assignment) targets
`processed_data`.  To state that the caller's frame is untouched, the
same pipeline is rendered over an explicit heap of frames: the caller's
frame lives at index `i`, the copy is allocated at index `j`, and each
mutating statement writes index `j`. -/

def rawFrame (f : Frame) : OutFrame := f.map (fun c => (c.1, OutCol.raw c.2))

def toFrameD (f : OutFrame) : Frame :=
  f.filterMap (fun c => match c.2 with | .raw d => some (c.1, d) | .scaled _ => none)

noncomputable def preprocess_data_heap (st : SState) (now : ℤ) (heap : List OutFrame)
    (i : ℕ) : SState × List OutFrame × Except PyError ℕ :=
  let data := toFrameD (heap.getD i [])
  let j := heap.length
  let heap1 := heap ++ [rawFrame data]
  match imputeFrame data with
  | .error e => (st, heap1, .error e)
  | .ok f1 =>
      let heap2 := heap1.set j (rawFrame f1)
      match tenureStep now f1 with
      | .error e => (st, heap2, .error e)
      | .ok f2 =>
          let heap3 := heap2.set j (rawFrame f2)
          let r := encodeStep f2 st.encoders
          let heap4 := heap3.set j (rawFrame r.1)
          match scaleStep { st with encoders := r.2 } r.1 with
          | (st2, .error e) => (st2, heap4, .error e)
          | (st2, .ok out) => (st2, heap4.set j out, .ok j)

/-- Session states reachable from engine construction through the
modeled mutating operations (`save_model`/`generate_report` mutate
nothing; `load_model` restores externally persisted state and is an
excluded I/O collaborator). -/
inductive Reachable : SState → Prop
  | init : Reachable initState
  | preprocess (st : SState) (now : ℤ) (d : Frame) :
      Reachable st → Reachable (preprocess_data st now d).1
  | update (fit : OutFrame → List ℤ) (st : SState) (now : ℤ) (d : Frame) :
      Reachable st → Reachable (update_groups fit st now d).1

/-! ## Helper lemmas -/

lemma roundHalfEven_spec (q : ℚ) :
    |((roundHalfEven q : ℤ) : ℚ) - q| ≤ 1/2 ∧
      (|((roundHalfEven q : ℤ) : ℚ) - q| = 1/2 → roundHalfEven q % 2 = 0) := by
  have h0 : (⌊q⌋ : ℚ) ≤ q := Int.floor_le q
  have h1 : q < ⌊q⌋ + 1 := Int.lt_floor_add_one q
  unfold roundHalfEven
  split_ifs with hA hB hC
  · refine ⟨?_, fun he => absurd ?_ (not_le.mpr hA)⟩
    · rw [abs_sub_comm, abs_of_nonneg (by linarith)]; linarith
    · rw [abs_sub_comm, abs_of_nonneg (by linarith)] at he; linarith
  · constructor
    · rw [abs_of_nonneg (by push_cast; linarith)]; push_cast; linarith
    · intro he; rw [abs_of_nonneg (by push_cast; linarith)] at he
      exfalso; push_cast at he; linarith
  · have hq : q - ⌊q⌋ = 1/2 := le_antisymm (not_lt.mp hB) (not_lt.mp hA)
    refine ⟨?_, fun _ => hC⟩
    rw [abs_sub_comm, abs_of_nonneg (by linarith)]; linarith
  · have hq : q - ⌊q⌋ = 1/2 := le_antisymm (not_lt.mp hB) (not_lt.mp hA)
    have hodd : ⌊q⌋ % 2 = 1 := by omega
    constructor
    · rw [abs_of_nonneg (by push_cast; linarith)]; push_cast; linarith
    · intro _; omega

lemma mergeLabels_getD (prev curr : List ℤ) (wp wc : ℚ) (i : ℕ)
    (h : i < (mergeLabels prev curr wp wc).length) :
    (mergeLabels prev curr wp wc).getD i 0 =
      roundHalfEven ((prev.getD i 0 : ℚ) * wp + (curr.getD i 0 : ℚ) * wc) := by
  have hlen : i < (prev.zip curr).length := by
    simpa [mergeLabels] using h
  have hp : i < prev.length := by rw [List.length_zip] at hlen; omega
  have hc : i < curr.length := by rw [List.length_zip] at hlen; omega
  rw [List.getD_eq_getElem _ _ h]
  unfold mergeLabels
  rw [List.getElem_map, List.getElem_zip,
    List.getD_eq_getElem _ _ hp, List.getD_eq_getElem _ _ hc]

lemma listMin_le_getD (xs : List ℚ) (j : ℕ) (h : j < xs.length) :
    listMin xs ≤ xs.getD j 0 := by
  induction xs generalizing j with
  | nil => simp at h
  | cons x t ih =>
      cases t with
      | nil =>
          have : j = 0 := by simpa using h
          subst this; simp [listMin]
      | cons y s =>
          cases j with
          | zero => simp [listMin]
          | succ j =>
              have hj : j < (y :: s).length := by simpa using h
              have := ih j hj
              simpa [listMin] using le_trans (min_le_right _ _) this

lemma npArgmin_getD (xs : List ℚ) (h : xs ≠ []) :
    xs.getD (npArgmin xs) 0 = listMin xs := by
  induction xs with
  | nil => exact absurd rfl h
  | cons x t ih =>
      cases t with
      | nil => simp [npArgmin, listMin]
      | cons y s =>
          rw [npArgmin]
          split_ifs with hle
          · simp [listMin, min_eq_left hle]
          · have := ih (by simp)
            simp only [List.getD_cons_succ, this, listMin]
            exact (min_eq_right (le_of_lt (not_le.mp hle))).symm

lemma npArgmin_min (xs : List ℚ) (j : ℕ) (h : j < xs.length) :
    xs.getD (npArgmin xs) 0 ≤ xs.getD j 0 := by
  have hne : xs ≠ [] := by
    intro he; subst he; simp at h
  rw [npArgmin_getD xs hne]
  exact listMin_le_getD xs j h

/-! ## Claims C1 and C2 -/

/-- C1 (corrected), counterexample: merging previous labels [0,1,0] with
current labels [1,1,2] at weights 0.5 / 0.5 does NOT yield [1,1,1] as the
claim states; Python's `round` is round-half-to-even, so index 0 blends
to round(0.5) = 0. -/
theorem cex_C1 :
    mergeLabels [0, 1, 0] [1, 1, 2] (1/2) (1/2) ≠ [1, 1, 1] ∧
    mergeLabels [0, 1, 0] [1, 1, 2] (1/2) (1/2) = [0, 1, 1] := by
  have h : mergeLabels [0, 1, 0] [1, 1, 2] (1/2) (1/2) = [0, 1, 1] := by
    norm_num [mergeLabels, roundHalfEven, -Int.self_sub_floor]
  exact ⟨by rw [h]; decide, h⟩

/-- C1 (amended): the per-index blended label is the integer nearest to
previous_label × weightPrev + current_label × weightCurr, with ties
resolved to the even integer (round-half-to-even, Python's `round`), not
half-away-from-zero; merging [0,1,0] with [1,1,2] at weights 0.5 / 0.5
yields [0,1,1]. -/
theorem thm_C1 :
    (∀ (prev curr : List ℤ) (wp wc : ℚ) (i : ℕ),
      i < (mergeLabels prev curr wp wc).length →
      |((mergeLabels prev curr wp wc).getD i 0 : ℚ) -
          ((prev.getD i 0 : ℚ) * wp + (curr.getD i 0 : ℚ) * wc)| ≤ 1/2 ∧
      (|((mergeLabels prev curr wp wc).getD i 0 : ℚ) -
          ((prev.getD i 0 : ℚ) * wp + (curr.getD i 0 : ℚ) * wc)| = 1/2 →
        (mergeLabels prev curr wp wc).getD i 0 % 2 = 0)) ∧
    mergeLabels [0, 1, 0] [1, 1, 2] (1/2) (1/2) = [0, 1, 1] := by
  constructor
  · intro prev curr wp wc i h
    rw [mergeLabels_getD prev curr wp wc i h]
    exact roundHalfEven_spec _
  · norm_num [mergeLabels, roundHalfEven, -Int.self_sub_floor]

/-- C1, witness for the amended theorem at index 0 of the concrete merge. -/
theorem wit_C1 :
    0 < (mergeLabels [0, 1, 0] [1, 1, 2] (1/2) (1/2)).length ∧
    |((mergeLabels [0, 1, 0] [1, 1, 2] (1/2) (1/2)).getD 0 0 : ℚ) -
        ((([0, 1, 0] : List ℤ).getD 0 0 : ℚ) * (1/2) +
          (([1, 1, 2] : List ℤ).getD 0 0 : ℚ) * (1/2))| ≤ 1/2 :=
  ⟨by decide, (thm_C1.1 [0, 1, 0] [1, 1, 2] (1/2) (1/2) 0 (by decide)).1⟩

/-- C2 (corrected), counterexample: for inertias [100,80,75,74,73] at
k = 2..6 the code selects k = 2 (`np.argmin(np.diff(inertias)) + 2`), not
k = 3 as the claim states. -/
theorem cex_C2 : determine_optimal_clusters [100, 80, 75, 74, 73] ≠ 3 := by
  have h : determine_optimal_clusters [100, 80, 75, 74, 73] = 2 := by
    norm_num [determine_optimal_clusters, npDiff, npArgmin, listMin]
  rw [h]; decide

/-- C2 (amended): the elbow selection returns the argmin of the first
differences offset by the start of the candidate range — the k at which
the largest single drop begins — so for inertias [100,80,75,74,73] it
selects k = 2 (the drop of 20 is the move from k=2 to k=3); the selected
position always carries the minimum (most negative) difference. -/
theorem thm_C2 :
    determine_optimal_clusters [100, 80, 75, 74, 73] = 2 ∧
    (∀ (inertias : List ℚ) (j : ℕ), j < (npDiff inertias).length →
      (npDiff inertias).getD (npArgmin (npDiff inertias)) 0 ≤ (npDiff inertias).getD j 0) := by
  constructor
  · norm_num [determine_optimal_clusters, npDiff, npArgmin, listMin]
  · intro inertias j h
    exact npArgmin_min _ j h

/-- C2, witness: the selected difference is no larger than the one at
index 1 of the concrete inertia sequence. -/
theorem wit_C2 :
    1 < (npDiff [100, 80, 75, 74, 73]).length ∧
    (npDiff [100, 80, 75, 74, 73]).getD (npArgmin (npDiff [100, 80, 75, 74, 73])) 0 ≤
      (npDiff [100, 80, 75, 74, 73]).getD 1 0 :=
  ⟨by decide, thm_C2.2 [100, 80, 75, 74, 73] 1 (by decide)⟩

/-! ## Claim C3 -/

lemma domScore_eq_zero (xs : List ℝ) : domScore xs = 0 := by
  unfold domScore
  rw [sub_self, zero_div, abs_zero]

lemma insertDesc_of_zero (x : String × ℝ) (t : List (String × ℝ)) (hx : x.2 = 0)
    (ht : ∀ p ∈ t, p.2 = 0) : insertDesc x t = x :: t := by
  cases t with
  | nil => rfl
  | cons y s =>
      unfold insertDesc
      rw [hx, ht y (by simp)]
      simp

lemma sortDesc_of_snd_zero (l : List (String × ℝ)) (h : ∀ p ∈ l, p.2 = 0) :
    sortDesc l = l := by
  induction l with
  | nil => rfl
  | cons x t ih =>
      have hs : sortDesc (x :: t) = insertDesc x (sortDesc t) := rfl
      rw [hs, ih (fun p hp => h p (by simp [hp]))]
      exact insertDesc_of_zero x t (h x (by simp)) (fun p hp => h p (by simp [hp]))

/-- C3 (code bug): the deviation score of `_identify_dominant_features`
subtracts the group's column mean from itself — against the spec's (and
the code's own comment's) |group mean − corpus mean| / std — so every
feature scores 0 and the "top 3 dominant features" are simply the first
three columns in declaration order, whatever the data. -/
theorem thm_C3 (cols : List (String × List ℝ)) :
    (identify_dominant_features cols).map Prod.snd = List.replicate (min 3 cols.length) 0 ∧
    (identify_dominant_features cols).map Prod.fst = (cols.map Prod.fst).take 3 := by
  have hmap : cols.map (fun c => (c.1, domScore c.2)) = cols.map (fun c => (c.1, (0 : ℝ))) :=
    List.map_congr_left (fun c _ => by rw [domScore_eq_zero])
  have hzero : ∀ p ∈ cols.map (fun c => (c.1, (0 : ℝ))), p.2 = 0 := by
    intro p hp
    rcases List.mem_map.mp hp with ⟨c, _, rfl⟩
    rfl
  have hsort : sortDesc (cols.map (fun c => (c.1, (0 : ℝ)))) = cols.map (fun c => (c.1, 0)) :=
    sortDesc_of_snd_zero _ hzero
  unfold identify_dominant_features
  rw [hmap, hsort]
  constructor
  · rw [List.map_take, List.map_map]
    have : (Prod.snd ∘ fun c : String × List ℝ => (c.1, (0 : ℝ))) = fun _ => (0 : ℝ) := rfl
    rw [this, List.map_const', List.take_replicate]
  · rw [List.map_take, List.map_map]
    rfl

/-! ## Claims C4 and C7: concrete preprocessing sessions -/

/-- A one-numeric-column frame (`salary` = [0.0, 2.0]). -/
def df4 : Frame := [("salary", ColData.floatCol [some 0, some 2])]

/-- A frame with an unsupported (bool) column next to a numeric one. -/
def dfU : Frame :=
  [("active", ColData.boolCol [true, false]),
   ("salary", ColData.floatCol [some 1, some 2])]

/-- A frame whose categorical column is entirely missing. -/
def dfM : Frame := [("dept", ColData.objCol [none, none])]

lemma transformCol_02 : transformCol [0, 2] = [-1, 1] := by
  have hm : meanQ [0, 2] = 1 := by norm_num [meanQ]
  have hv : popVar [0, 2] = 1 := by norm_num [popVar, meanQ]
  have hs : scaleOf [0, 2] = 1 := by
    rw [scaleOf, if_neg (by rw [hv]; norm_num), hv]
    push_cast
    exact Real.sqrt_one
  rw [transformCol, hs, hm]
  norm_num

lemma transformCol_12 : transformCol [1, 2] = [-1, 1] := by
  have hm : meanQ [1, 2] = 3/2 := by norm_num [meanQ]
  have hv : popVar [1, 2] = 1/4 := by norm_num [popVar, meanQ]
  have hs : scaleOf [1, 2] = 1/2 := by
    rw [scaleOf, if_neg (by rw [hv]; norm_num), hv]
    rw [show (((1/4 : ℚ) : ℝ)) = (1/2 : ℝ) ^ 2 by push_cast; norm_num]
    exact Real.sqrt_sq (by norm_num)
  rw [transformCol, hs, hm]
  norm_num

/-- C4 (code bug): in a session whose scaler dict is already populated,
`preprocess_data` returns the numeric column RAW — the entire scaling
block, transform included, sits inside the `if 'numeric_scaler' not in
self.scalers` guard — while the first call of the session does return it
standardized ([0,2] ↦ [−1,1]).  The claim's "parameters … applied, not
refit, on all subsequent calls" fails: nothing is applied. -/
theorem thm_C4 :
    (preprocess_data ((preprocess_data initState 0 df4).1) 0 df4).2 =
      .ok [("salary", OutCol.raw (ColData.floatCol [some 0, some 2]))] ∧
    (preprocess_data initState 0 df4).2 = .ok [("salary", OutCol.scaled [-1, 1])] := by
  constructor
  · rfl
  · have h : (preprocess_data initState 0 df4).2 =
        .ok [("salary", OutCol.scaled (transformCol [0, 2]))] := rfl
    rw [h, transformCol_02]

/-- C7 (corrected), counterexample: preprocessing a frame containing an
unsupported (bool) column succeeds — no error of any kind is raised —
and the output still contains that column, passed through unchanged. -/
theorem cex_C7 :
    ((preprocess_data initState 0 dfU).2).isOk = true ∧
    ((preprocess_data initState 0 dfU).2.toOption.getD []).head? =
      some ("active", OutCol.raw (ColData.boolCol [true, false])) := by
  exact ⟨rfl, rfl⟩

/-- C7 (amended): preprocessing never raises a `PreprocessingError` (the
source defines none); a column of unsupported dtype is silently passed
through unchanged (here the bool column, while the numeric neighbour is
standardized), and a categorical column whose values are all missing
fails with a KeyError from the `mode()[0]` lookup. -/
theorem thm_C7 :
    (preprocess_data initState 0 dfU).2 =
      .ok [("active", OutCol.raw (ColData.boolCol [true, false])),
           ("salary", OutCol.scaled [-1, 1])] ∧
    (preprocess_data initState 0 dfM).2 = .error .keyError := by
  constructor
  · have h : (preprocess_data initState 0 dfU).2 =
        .ok [("active", OutCol.raw (ColData.boolCol [true, false])),
             ("salary", OutCol.scaled (transformCol [1, 2]))] := rfl
    rw [h, transformCol_12]
  · rfl

/-! ## Claim C5: encoder drift across calls -/

/-- First-call frame: `department` holds only "b". -/
def dfB : Frame := [("department", ColData.objCol [some "b"])]

/-- Second-call frame: `department` holds "a" and "b". -/
def dfAB : Frame := [("department", ColData.objCol [some "a", some "b"])]

lemma np_unique_ab : np_unique ["a", "b"] = (["a", "b"] : List String) := by
  simp [np_unique, insertUnique]
  decide

lemma modeFirst_ab : modeFirst ["a", "b"] = some "a" := by
  unfold modeFirst
  rw [np_unique_ab]
  simp [List.foldl_cons, List.foldl_nil, List.count_cons, List.count_nil]

lemma imputeCol_dfAB :
    imputeCol (ColData.objCol [some "a", some "b"]) =
      .ok (ColData.objCol [some "a", some "b"]) := by
  have h : modeFirst (([some "a", some "b"] : List (Option String)).filterMap id)
      = some "a" := by
    rw [show (([some "a", some "b"] : List (Option String)).filterMap id) = ["a", "b"] from rfl]
    exact modeFirst_ab
  simp only [imputeCol]
  rw [h]
  rfl

lemma imputeFrame_dfAB : imputeFrame dfAB = .ok dfAB := by
  show imputeFrame [("department", ColData.objCol [some "a", some "b"])] = _
  simp only [imputeFrame]
  rw [imputeCol_dfAB]
  rfl

lemma encodeStep_dfAB :
    encodeStep dfAB [("department", ["b"])] =
      ([("department", ColData.intCol [0, 1])], [("department", ["a", "b"])]) := by
  show encodeStep [("department", ColData.objCol [some "a", some "b"])] _ = _
  simp only [encodeStep]
  rw [show (([some "a", some "b"] : List (Option String)).filterMap id) = ["a", "b"] from rfl,
    np_unique_ab]
  rfl

lemma preprocess_eval (st : SState) (now : ℤ) (data f1 f2 : Frame)
    (h1 : imputeFrame data = .ok f1) (h2 : tenureStep now f1 = .ok f2) :
    preprocess_data st now data =
      scaleStep { st with encoders := (encodeStep f2 st.encoders).2 }
        (encodeStep f2 st.encoders).1 := by
  unfold preprocess_data
  rw [h1]
  dsimp only
  rw [h2]

lemma scaleStep_fitted (st : SState) (f : Frame) (h : st.scaler.isSome = true) :
    scaleStep st f = (st, .ok (f.map (fun c => (c.1, OutCol.raw c.2)))) := by
  unfold scaleStep
  cases hs : st.scaler with
  | none => rw [hs] at h; simp at h
  | some p => rfl

/-- C5 (code bug): the label-encoder mapping is NOT fit once per session:
`fit_transform` runs on every call (only the encoder object's creation is
guarded), so a second call on ["a","b"] re-fits the `department` classes
from ["b"] to ["a","b"], and the code for "b" drifts from 0 to 1 — the
exact encoding drift the spec calls a defect. -/
theorem thm_C5 :
    (preprocess_data initState 0 dfB).1.encoders = [("department", ["b"])] ∧
    (preprocess_data ((preprocess_data initState 0 dfB).1) 0 dfAB).1.encoders
      = [("department", ["a", "b"])] ∧
    (preprocess_data ((preprocess_data initState 0 dfB).1) 0 dfAB).2
      = .ok [("department", OutCol.raw (ColData.intCol [0, 1]))] := by
  have h1 : (preprocess_data initState 0 dfB).1.encoders = [("department", ["b"])] := rfl
  have hsome : ((preprocess_data initState 0 dfB).1).scaler.isSome = true := rfl
  have hten : tenureStep 0 dfAB = .ok dfAB := rfl
  have hpre : preprocess_data ((preprocess_data initState 0 dfB).1) 0 dfAB =
      scaleStep { (preprocess_data initState 0 dfB).1 with
          encoders := (encodeStep dfAB ((preprocess_data initState 0 dfB).1).encoders).2 }
        (encodeStep dfAB ((preprocess_data initState 0 dfB).1).encoders).1 :=
    preprocess_eval _ 0 dfAB dfAB dfAB imputeFrame_dfAB hten
  refine ⟨h1, ?_, ?_⟩
  · rw [hpre, h1, encodeStep_dfAB, scaleStep_fitted _ _ (by exact hsome)]
  · rw [hpre, h1, encodeStep_dfAB, scaleStep_fitted _ _ (by exact hsome)]
    rfl

/-! ## Claims C6 and C9: the temporal merge path -/

lemma scaleStep_state (st : SState) (f : Frame) :
    ((scaleStep st f).1).previous_groups = st.previous_groups ∧
    ((scaleStep st f).1).current_data = st.current_data := by
  unfold scaleStep
  cases st.scaler with
  | none =>
      dsimp only
      split_ifs <;> exact ⟨rfl, rfl⟩
  | some p => exact ⟨rfl, rfl⟩

lemma preprocess_state (st : SState) (now : ℤ) (data : Frame) :
    ((preprocess_data st now data).1).previous_groups = st.previous_groups ∧
    ((preprocess_data st now data).1).current_data = st.current_data := by
  unfold preprocess_data
  cases imputeFrame data with
  | error e => exact ⟨rfl, rfl⟩
  | ok f1 =>
      dsimp only
      cases tenureStep now f1 with
      | error e => exact ⟨rfl, rfl⟩
      | ok f2 => exact scaleStep_state _ _

lemma merge_groupings_no_current (st : SState) (p c : Grouping) (wp wc : ℚ)
    (h : st.current_data = none) :
    merge_groupings st p c wp wc = .error .attributeError := by
  unfold merge_groupings
  rw [h]

lemma update_state (fit : OutFrame → List ℤ) (st : SState) (now : ℤ) (d : Frame) :
    ((update_groups fit st now d).1).current_data = st.current_data := by
  unfold update_groups
  cases hp : preprocess_data st now d with
  | mk st1 r =>
      have hc : st1.current_data = st.current_data := by
        have h := (preprocess_state st now d).2
        rw [hp] at h
        exact h
      cases r with
      | error e => exact hc
      | ok processed =>
          dsimp only
          cases st1.previous_groups with
          | none => exact hc
          | some prev =>
              dsimp only
              cases merge_groupings st1 prev (identify_groups fit processed) (3/10) (7/10) with
              | error e => exact hc
              | ok updated => exact hc

/-- No session state reachable through the modeled operations ever has a
`current_data` attribute: nothing assigns it. -/
lemma reachable_current_none {st : SState} (h : Reachable st) : st.current_data = none := by
  induction h with
  | init => rfl
  | preprocess st now d _ ih => rw [(preprocess_state st now d).2]; exact ih
  | update fit st now d _ ih => rw [update_state fit st now d]; exact ih

/-- C6 (corrected), counterexample: merging assignments of lengths 2 and
1 does NOT fail with an alignment error — the blending `zip` silently
truncates to the shorter input (producing the single blended label
round(0·0.3 + 1·0.7) = 1), and the call as a whole fails with the
`current_data` attribute lookup instead. -/
theorem cex_C6 :
    merge_groupings initState
        { labels := [0, 1], group_profiles := [], method_used := "dbscan" }
        { labels := [1], group_profiles := [], method_used := "dbscan" }
        (3/10) (7/10) ≠ .error .alignmentError ∧
    mergeLabels [0, 1] [1] (3/10) (7/10) = [1] := by
  constructor
  · rw [merge_groupings_no_current _ _ _ _ _ rfl]
    simp
  · norm_num [mergeLabels, roundHalfEven, -Int.self_sub_floor]

/-- C6 (amended): the temporal merge performs no alignment check and can
never fail with an AlignmentError (for any inputs, aligned or not); the
blended labels are computed over the zip of the two assignments, i.e.
truncated to the shorter one, and whenever the session lacks
`current_data` — which is always, see C9 — the whole call fails with the
attribute lookup error instead. -/
theorem thm_C6 :
    (∀ (st : SState) (p c : Grouping) (wp wc : ℚ),
      merge_groupings st p c wp wc ≠ .error .alignmentError) ∧
    (∀ (st : SState) (p c : Grouping) (wp wc : ℚ), st.current_data = none →
      merge_groupings st p c wp wc = .error .attributeError) ∧
    (∀ (p c : Grouping) (wp wc : ℚ),
      (mergeLabels p.labels c.labels wp wc).length
        = min p.labels.length c.labels.length) := by
  refine ⟨?_, ?_, ?_⟩
  · intro st p c wp wc
    unfold merge_groupings
    cases st.current_data with
    | none => simp
    | some d => simp
  · intro st p c wp wc h
    exact merge_groupings_no_current st p c wp wc h
  · intro p c wp wc
    simp [mergeLabels]

/-- C6, witness: at the fresh session state (which has no `current_data`)
the merge of the two concrete assignments returns the attribute error. -/
theorem wit_C6 :
    initState.current_data = none ∧
    merge_groupings initState
        { labels := [0, 1], group_profiles := [], method_used := "dbscan" }
        { labels := [1], group_profiles := [], method_used := "dbscan" }
        (3/10) (7/10) = .error .attributeError :=
  ⟨rfl, thm_C6.2.1 initState _ _ (3/10) (7/10) rfl⟩

/-- C9 (confirmed): in any reachable session state that holds a previous
grouping, an `update_groups` call whose preprocessing succeeds (i.e. that
reaches the merge step) fails with the attribute lookup error on
`current_data`, which no operation of the system ever assigns — the
temporal merge path can never return a result. -/
theorem thm_C9 (fit : OutFrame → List ℤ) (st : SState) (now : ℤ) (d : Frame) (pr : OutFrame)
    (h1 : Reachable st) (h2 : st.previous_groups.isSome = true)
    (h3 : (preprocess_data st now d).2 = .ok pr) :
    (update_groups fit st now d).2 = .error .attributeError := by
  unfold update_groups
  cases hp : preprocess_data st now d with
  | mk st1 r =>
      rw [hp] at h3
      dsimp only at h3
      subst h3
      have hprev : st1.previous_groups = st.previous_groups := by
        have h := (preprocess_state st now d).1
        rw [hp] at h
        exact h
      have hcur : st1.current_data = none := by
        have h := (preprocess_state st now d).2
        rw [hp] at h
        rw [h]
        exact reachable_current_none h1
      obtain ⟨g, hg⟩ := Option.isSome_iff_exists.mp h2
      dsimp only
      rw [hprev, hg]
      dsimp only
      rw [merge_groupings_no_current _ _ _ _ _ hcur]

/-- The pluggable clustering oracle used by the C9 witness. -/
def fit0 : OutFrame → List ℤ := fun _ => [0]

/-- The session state after one successful `update_groups` call on a
fresh engine: it holds a previous grouping. -/
noncomputable def st9 : SState := (update_groups fit0 initState 0 df4).1

/-- C9, witness: after one update call, the next one fails with the
attribute error. -/
theorem wit_C9 :
    st9.previous_groups.isSome = true ∧
    (update_groups fit0 st9 0 df4).2 = .error .attributeError :=
  ⟨rfl, thm_C9 fit0 st9 0 df4 ((preprocess_data st9 0 df4).2.toOption.getD [])
    (Reachable.update fit0 initState 0 df4 Reachable.init) rfl rfl⟩

/-! ## Claims C8 and C10 -/

lemma mem_insertUnique [LinearOrder α] (x y : α) (l : List α) :
    y ∈ insertUnique x l ↔ y = x ∨ y ∈ l := by
  induction l with
  | nil => simp [insertUnique]
  | cons z t ih =>
      unfold insertUnique
      split_ifs with h1 h2
      · simp [List.mem_cons]
      · subst h2
        simp [List.mem_cons]
      · simp [List.mem_cons, ih]
        tauto

lemma pairwise_insertUnique [LinearOrder α] (x : α) (l : List α)
    (h : l.Pairwise (· < ·)) : (insertUnique x l).Pairwise (· < ·) := by
  induction l with
  | nil => simp [insertUnique]
  | cons z t ih =>
      rw [List.pairwise_cons] at h
      obtain ⟨hz, ht⟩ := h
      unfold insertUnique
      split_ifs with h1 h2
      · rw [List.pairwise_cons]
        refine ⟨?_, ?_⟩
        · intro b hb
          rcases List.mem_cons.mp hb with rfl | hbt
          · exact h1
          · exact lt_trans h1 (hz b hbt)
        · rw [List.pairwise_cons]
          exact ⟨hz, ht⟩
      · rw [List.pairwise_cons]
        exact ⟨hz, ht⟩
      · have hzx : z < x := by
          rcases lt_trichotomy x z with hlt | heq | hgt
          · exact absurd hlt h1
          · exact absurd heq h2
          · exact hgt
        rw [List.pairwise_cons]
        refine ⟨?_, ih ht⟩
        intro b hb
        rcases (mem_insertUnique x b t).mp hb with rfl | hbt
        · exact hzx
        · exact hz b hbt

lemma np_unique_pairwise [LinearOrder α] (xs : List α) :
    (np_unique xs).Pairwise (· < ·) := by
  induction xs with
  | nil => simp [np_unique]
  | cons x t ih => exact pairwise_insertUnique x (np_unique t) ih

lemma mem_np_unique [LinearOrder α] (xs : List α) (y : α) :
    y ∈ np_unique xs ↔ y ∈ xs := by
  induction xs with
  | nil => simp [np_unique]
  | cons x t ih =>
      show y ∈ insertUnique x (np_unique t) ↔ _
      rw [mem_insertUnique, ih]
      simp [List.mem_cons]

lemma np_unique_nodup [LinearOrder α] (xs : List α) : (np_unique xs).Nodup :=
  (np_unique_pairwise xs).imp (fun h => ne_of_lt h)

lemma filterMap_profile_keys (g : ℤ → GroupProfile) (u : List ℤ) :
    ((u.filterMap (fun l => if l = -1 then none else some (l, g l))).map Prod.fst)
      = u.filter (fun l => l ≠ -1) ∧
    ((u.filterMap (fun l => if l = -1 then none else some (l, g l))).map
        (fun p => p.2.size))
      = (u.filter (fun l => l ≠ -1)).map (fun l => (g l).size) := by
  induction u with
  | nil => exact ⟨rfl, rfl⟩
  | cons x t ih =>
      by_cases hx : x = -1
      · simpa [List.filterMap_cons, List.filter_cons, hx] using ih
      · simp only [List.filterMap_cons, List.filter_cons, if_neg hx]
        simp [hx, ih.1, ih.2]

lemma selectRows_length (rows : List (List ℝ)) (labels : List ℤ) (l : ℤ)
    (h : rows.length = labels.length) :
    (selectRows rows labels l).length = labels.count l := by
  unfold selectRows
  rw [List.length_map]
  induction labels generalizing rows with
  | nil => simp
  | cons a t ih =>
      cases rows with
      | nil => simp at h
      | cons r rt =>
          have ht : rt.length = t.length := by simpa using h
          rw [List.zip_cons_cons, List.filter_cons]
          by_cases ha : a = l
          · simp [ha, ih rt ht, List.count_cons]
          · simp [ha, ih rt ht, List.count_cons]

lemma count_sum (labels : List ℤ) :
    (((np_unique labels).filter (fun l => l ≠ -1)).map (fun l => labels.count l)).sum
      = labels.length - labels.count (-1) := by
  have hnd : ((np_unique labels).filter (fun l => l ≠ -1)).Nodup :=
    (np_unique_nodup labels).filter _
  have hsum : (((np_unique labels).filter (fun l => l ≠ -1)).map
      (fun l => labels.count l)).sum
      = ∑ a ∈ ((np_unique labels).filter (fun l => l ≠ -1)).toFinset, labels.count a :=
    (List.sum_toFinset _ hnd).symm
  have hfin : ((np_unique labels).filter (fun l => l ≠ -1)).toFinset
      = labels.toFinset.filter (fun l => l ≠ -1) := by
    ext a
    simp [List.mem_toFinset, List.mem_filter, mem_np_unique]
  rw [hsum, hfin]
  have htot : ∑ a ∈ labels.toFinset, labels.count a = labels.length :=
    List.sum_toFinset_count_eq_length labels
  have hsplit := Finset.sum_filter_add_sum_filter_not labels.toFinset
      (fun l => l ≠ -1) (fun a => labels.count a)
  have hneg : ∑ a ∈ labels.toFinset.filter (fun l => ¬ l ≠ -1), labels.count a
      = labels.count (-1) := by
    by_cases hm : (-1 : ℤ) ∈ labels
    · have he : labels.toFinset.filter (fun l => ¬ l ≠ -1) = {-1} := by
        ext a
        simp [List.mem_toFinset]
        intro h
        subst h
        exact hm
      rw [he, Finset.sum_singleton]
    · have he : labels.toFinset.filter (fun l => ¬ l ≠ -1) = ∅ := by
        ext a
        simp [List.mem_toFinset]
        intro h heq
        subst heq
        exact hm h
      rw [he, Finset.sum_empty]
      exact (List.count_eq_zero.mpr hm).symm
  omega

/-- C8 (confirmed): the profiler emits exactly one profile per non-noise
label present in the assignment (keys are duplicate-free and are exactly
the labels other than −1), and under the assignment-length invariant the
profile sizes sum to the record count minus the noise count. -/
theorem thm_C8 (data : ProfFrame) (labels : List ℤ) :
    ((analyze_group_profiles data labels).map Prod.fst).Nodup ∧
    (∀ l : ℤ, l ∈ (analyze_group_profiles data labels).map Prod.fst ↔
      l ∈ labels ∧ l ≠ -1) ∧
    (data.rows.length = labels.length →
      ((analyze_group_profiles data labels).map (fun p => p.2.size)).sum
        = labels.length - labels.count (-1)) := by
  obtain ⟨hkeys, hsizes⟩ := filterMap_profile_keys
    (fun l => mkProfile data.names (selectRows data.rows labels l)) (np_unique labels)
  have hA : analyze_group_profiles data labels
      = (np_unique labels).filterMap
          (fun l => if l = -1 then none
            else some (l, mkProfile data.names (selectRows data.rows labels l))) := rfl
  refine ⟨?_, ?_, ?_⟩
  · rw [hA, hkeys]
    exact (np_unique_nodup labels).filter _
  · intro l
    rw [hA, hkeys, List.mem_filter]
    simp [mem_np_unique]
  · intro hlen
    rw [hA, hsizes]
    have hmap : ((np_unique labels).filter (fun l => l ≠ -1)).map
        (fun l => (mkProfile data.names (selectRows data.rows labels l)).size)
        = ((np_unique labels).filter (fun l => l ≠ -1)).map (fun l => labels.count l) := by
      apply List.map_congr_left
      intro l _
      exact selectRows_length data.rows labels l hlen
    rw [hmap, count_sum]

/-- C8, witness: a 4-record frame with labels [0,−1,2,0]. -/
theorem wit_C8 :
    (ProfFrame.mk ["f"] [[1], [2], [3], [4]]).rows.length = ([0, -1, 2, 0] : List ℤ).length ∧
    ((analyze_group_profiles ⟨["f"], [[1], [2], [3], [4]]⟩ [0, -1, 2, 0]).map
        (fun p => p.2.size)).sum
      = ([0, -1, 2, 0] : List ℤ).length - ([0, -1, 2, 0] : List ℤ).count (-1) :=
  ⟨rfl, (thm_C8 ⟨["f"], [[1], [2], [3], [4]]⟩ [0, -1, 2, 0]).2.2 rfl⟩

/-- C10 (confirmed): in the heap-level rendering of `preprocess_data`,
where the caller's frame lives at heap index `i` and `data.copy()`
allocates the working frame at a fresh index, the caller's entry is the
same after the call as before it, in every control path — imputation,
tenure derivation, encoding and scaling mutate only the copy. -/
theorem thm_C10 (st : SState) (now : ℤ) (heap : List OutFrame) (i : ℕ)
    (h : i < heap.length) :
    ((preprocess_data_heap st now heap i).2.1)[i]? = heap[i]? := by
  have hne : heap.length ≠ i := by omega
  unfold preprocess_data_heap
  dsimp only
  cases imputeFrame (toFrameD (heap.getD i [])) with
  | error e =>
      dsimp only
      rw [List.getElem?_append_left h]
  | ok f1 =>
      dsimp only
      cases tenureStep now f1 with
      | error e =>
          dsimp only
          rw [List.getElem?_set_ne hne, List.getElem?_append_left h]
      | ok f2 =>
          dsimp only
          cases scaleStep { st with encoders := (encodeStep f2 st.encoders).2 }
              (encodeStep f2 st.encoders).1 with
          | mk st2 r =>
              cases r with
              | error e =>
                  dsimp only
                  rw [List.getElem?_set_ne hne, List.getElem?_set_ne hne,
                    List.getElem?_set_ne hne, List.getElem?_append_left h]
              | ok out =>
                  dsimp only
                  rw [List.getElem?_set_ne hne, List.getElem?_set_ne hne,
                    List.getElem?_set_ne hne, List.getElem?_set_ne hne,
                    List.getElem?_append_left h]

/-- C10, witness: a one-frame heap holding `df4`. -/
theorem wit_C10 :
    0 < ([rawFrame df4] : List OutFrame).length ∧
    ((preprocess_data_heap initState 0 [rawFrame df4] 0).2.1)[0]?
      = ([rawFrame df4] : List OutFrame)[0]? :=
  ⟨by simp, thm_C10 initState 0 [rawFrame df4] 0 (by simp)⟩
